import Mathlib

/-!
Verification development for the backfill orchestration engine of the
`dag_command.py` CLI module.  The functions `_run_dag_backfill` and
`dag_backfill` are embedded shallowly: timestamps are natural numbers,
the observable behaviour of an invocation is a list of `Event`s (the
prints, collaborator calls and state mutations the code performs, in
program order) together with an optional abort condition (an uncaught
exception or a `sys.exit`).  External collaborators that are not part of
the source file under verification (the JSON parser, the regex engine,
the global configuration flag, the schedule rule, `DAG.partial_subset`,
`DAG.iter_dagrun_infos_between` and `DAG.run`) are modelled from the
specification, as marked on each definition.
-/

namespace AirflowBackfill

/-- Lexicographic comparison of character lists by code point; the order
Python uses when comparing the identifier strings handed to `list.sort`. -/
def lexLe : List Char → List Char → Bool
  | [], _ => true
  | _ :: _, [] => false
  | a :: as, b :: bs => if a < b then true else if a = b then lexLe as bs else false

/-- String comparison by code points, as Python's `<=` on `str`. -/
def strLe (a b : String) : Bool := lexLe a.data b.data

/-- Stable sorted insertion, helper for `insertion_sort`. -/
def ordered_insert {α : Type} (le : α → α → Bool) (a : α) : List α → List α
  | [] => [a]
  | b :: l => if le a b then a :: b :: l else b :: ordered_insert le a l

/-- Stable insertion sort; models Python's stable `list.sort(key=...)`. -/
def insertion_sort {α : Type} (le : α → α → Bool) : List α → List α
  | [] => []
  | a :: l => ordered_insert le a (insertion_sort le l)

/-- The run states used by the source; `dag_run_state=DagRunState.QUEUED`
is passed to `DAG.clear_dags`. -/
inductive DagRunState where
  | queued
  | running
  | success
  | failed
deriving DecidableEq, Repr

/-- A task definition: an identifier and its direct upstream task
identifiers (the dependency edges of the workflow graph). -/
structure Task where
  task_id : String
  upstream_task_ids : List String
deriving DecidableEq, Repr

/-- One logical run interval, as yielded by the interval enumerator:
a data interval `[interval_start, interval_end]` identified by its
`logical_date`. -/
structure DagRunInfo where
  interval_start : Nat
  interval_end : Nat
  logical_date : Nat
deriving DecidableEq, Repr

/-- A workflow definition.  `schedule_infos` is the schedule rule's full
ascending sequence of logical run intervals (the opaque "next interval"
capability of the spec, given by its graph). -/
structure Dag where
  dag_id : String
  tasks : List Task
  schedule_infos : List DagRunInfo
deriving DecidableEq, Repr

/-- An opaque parsed structured `conf` payload (the result of a
successful `json.loads`). -/
structure ConfVal where
  raw : String
deriving DecidableEq, Repr

/-- Modelled from the spec: the external collaborators the source calls
but that are not part of the verified file — `json.loads` (a fallible
structured-data parser), the regex engine used by task selection, and
the global `conf.getboolean("core", "donot_pickle")` setting. -/
structure Collab where
  json_loads : String → Option ConfVal
  re_search : String → String → Bool
  core_donot_pickle : Bool

/-- The argument-namespace fields that `dag_backfill` and
`_run_dag_backfill` read.  `local_mode` renders the Python attribute
`local` (a reserved word in Lean); dates are `Option` because the CLI
may omit either bound. -/
structure Args where
  start_date : Option Nat
  end_date : Option Nat
  conf : Option String
  task_regex : Option String
  ignore_dependencies : Bool
  dry_run : Bool
  reset_dagruns : Bool
  yes : Bool
  mark_success : Bool
  local_mode : Bool
  donot_pickle : Bool
  ignore_first_depends_on_past : Bool
  pool : Option String
  delay_on_limit : Nat
  verbose : Bool
  rerun_failed_tasks : Bool
  run_backwards : Bool
  continue_on_failures : Bool
  disable_retry : Bool
  treat_dag_id_as_regex : Bool
  treat_dag_as_regex : Bool
deriving DecidableEq, Repr

/-- The exact keyword arguments the source passes to `DAG.run`
(lines 108–124 of the source). -/
structure RunCall where
  dag_id : String
  start_date : Nat
  end_date : Nat
  mark_success : Bool
  local_mode : Bool
  donot_pickle : Bool
  ignore_first_depends_on_past : Bool
  ignore_task_deps : Bool
  pool : Option String
  delay_on_limit_secs : Nat
  verbose : Bool
  conf : Option ConfVal
  rerun_failed_tasks : Bool
  run_backwards : Bool
  continue_on_failures : Bool
  disable_retry : Bool
deriving DecidableEq, Repr

/-- Observable steps of one invocation, in program order:
`taskSubset` is the `partial_subset` selection call, `dryRunHeader` and
`printLine` are `print` calls, `transientDagRun` is the construction of
the non-persisted `DagRun` in the dry-run loop, `tiDryRun` is the
side-effect-free `TaskInstance.dry_run()` call, `clearDags` is the
`DAG.clear_dags` state reset, `runCall` is the delegation to `DAG.run`,
and `execInterval`/`execTask` are the per-interval run-record and
task-record processing of real execution. -/
inductive Event where
  | taskSubset (dag_id : String) (task_ids_or_regex : String)
      (include_upstream : Bool) (selected_task_ids : List String)
  | dryRunHeader (dag_id : String) (start_date : Nat)
  | printLine (line : String)
  | tiDryRun (dag_id : String) (logical_date : Nat) (task_id : String)
  | clearDags (dag_id : String) (start_date : Nat) (end_date : Nat)
      (confirm_prompt : Bool) (include_subdags : Bool) (dag_run_state : DagRunState)
  | runCall (c : RunCall)
  | transientDagRun (dag_id : String) (logical_date : Nat)
      (interval_start : Nat) (interval_end : Nat)
  | execInterval (dag_id : String) (logical_date : Nat) (interval_start : Nat)
  | execTask (dag_id : String) (logical_date : Nat) (task_id : String)
deriving DecidableEq, Repr

/-- Abort conditions of an invocation: the `AirflowException` for a
missing time window, the `json.loads` failure on a malformed `conf`
payload, the `AirflowException` for an empty task selection (tagged
with the offending pattern), and the `TypeError` crash that unbounded
`None` dates would cause inside the collaborators (unreachable through
`dag_backfill`, which validates the window first). -/
inductive BackfillError where
  | missingDates
  | malformedConf
  | emptySelection (task_regex : String)
  | noneDateCrash
deriving DecidableEq, Repr

/-- `ConfigError` classification of the spec's error taxonomy: a
malformed structured `conf` payload or a time window with both bounds
absent. -/
def BackfillError.isConfigError : BackfillError → Bool
  | .missingDates => true
  | .malformedConf => true
  | _ => false

/-- Outcome of an invocation: everything it observably did, in order,
and the abort it ended with (`none` = normal termination). -/
structure RunResult where
  events : List Event
  error : Option BackfillError
deriving DecidableEq, Repr

/-- The set of task identifiers of a task list. -/
def taskIds (tasks : List Task) : Finset String :=
  (tasks.map Task.task_id).toFinset

/-- Direct upstream identifiers of the tasks of `tasks` currently
selected in `X`. -/
def upstreamsOf (tasks : List Task) (X : Finset String) : Finset String :=
  ((tasks.filter (fun t => decide (t.task_id ∈ X))).flatMap Task.upstream_task_ids).toFinset

/-- Fuelled saturation step for the transitive upstream closure. -/
def saturateFuel (tasks : List Task) (V : Finset String) :
    Nat → Finset String → Finset String
  | 0, X => X
  | n + 1, X =>
    if X ∪ upstreamsOf tasks X ∩ V = X then X
    else saturateFuel tasks V n (X ∪ upstreamsOf tasks X ∩ V)

/-- Transitive closure of a selection under the upstream relation,
restricted to identifiers of actual tasks; `tasks.length` steps of
saturation always reach the fixpoint. -/
def saturate (tasks : List Task) (X : Finset String) : Finset String :=
  saturateFuel tasks (taskIds tasks) tasks.length X

/-- Modelled from the spec: `DAG.partial_subset` (TaskSubsetSelector,
§4.2), absent from the verified file — the pattern is matched against
task identifiers and, when `include_upstream` is set, the result is
extended with the transitive closure of upstream dependencies of every
direct match. -/
def Dag.task_subset (re_search : String → String → Bool) (dag : Dag)
    (task_ids_or_regex : String) (include_upstream : Bool) : Dag :=
  let direct := taskIds (dag.tasks.filter (fun t => re_search task_ids_or_regex t.task_id))
  let selected := if include_upstream then saturate dag.tasks direct else direct
  { dag with tasks := dag.tasks.filter (fun t => decide (t.task_id ∈ selected)) }

/-- Modelled from the spec: `DAG.iter_dagrun_infos_between`
(IntervalEnumerator, §4.1), absent from the verified file — the schedule
rule's intervals with `earliest ≤ logical_date ≤ latest`, in the
schedule's ascending order; the call sites in the source pass no
direction, so this is the forward enumeration. -/
def Dag.iter_dagrun_infos_between (dag : Dag) (earliest latest : Nat) : List DagRunInfo :=
  dag.schedule_infos.filter
    (fun i => decide (earliest ≤ i.logical_date) && decide (i.logical_date ≤ latest))

/-- The string printed by the dry-run loop for one task:
`print(f"Task {task.task_id} located in DAG {dag.dag_id}")`. -/
def located_line (tid did : String) : String :=
  "Task " ++ tid ++ " located in DAG " ++ did

/-- The dry-run loop body for one interval (source lines 84–95):
construct the transient `DagRun`, then per task print the located line
and invoke the side-effect-free `TaskInstance.dry_run()`. -/
def dryIntervalEvents (dag : Dag) (i : DagRunInfo) : List Event :=
  Event.transientDagRun dag.dag_id i.logical_date i.interval_start i.interval_end ::
    dag.tasks.flatMap (fun t =>
      [Event.printLine (located_line t.task_id dag.dag_id),
       Event.tiDryRun dag.dag_id i.logical_date t.task_id])

/-- Modelled from the spec: the per-interval processing of real
execution (BackfillExecutor §4.5) — obtain/create the run record for
the interval and process each selected task record. -/
def execIntervalEvents (dag : Dag) (i : DagRunInfo) : List Event :=
  Event.execInterval dag.dag_id i.logical_date i.interval_start ::
    dag.tasks.map (fun t => Event.execTask dag.dag_id i.logical_date t.task_id)

/-- Modelled from the spec: `DAG.run` (BackfillExecutor, §4.5), absent
from the verified file — intervals are delivered by the enumerator in
the requested direction (`run_backwards` reverses the forward sequence)
and the executor preserves that order; per-interval outcome handling,
admission control and retry policy are beyond the scope of the claims
settled here and are not modelled. -/
def Dag.run (dag : Dag) (c : RunCall) : List Event :=
  let infos := dag.iter_dagrun_infos_between c.start_date c.end_date
  Event.runCall c ::
    (if c.run_backwards then infos.reverse else infos).flatMap (execIntervalEvents dag)

/-- The keyword arguments of the `dag.run(...)` call in the source
(lines 108–124), built from the argument namespace. -/
def mkRunCall (cb : Collab) (run_conf : Option ConfVal) (sd ed : Nat)
    (args : Args) (dag : Dag) : RunCall :=
  { dag_id := dag.dag_id
    start_date := sd
    end_date := ed
    mark_success := args.mark_success
    local_mode := args.local_mode
    donot_pickle := (args.donot_pickle || cb.core_donot_pickle)
    ignore_first_depends_on_past := args.ignore_first_depends_on_past
    ignore_task_deps := args.ignore_dependencies
    pool := args.pool
    delay_on_limit_secs := args.delay_on_limit
    verbose := args.verbose
    conf := run_conf
    rerun_failed_tasks := args.rerun_failed_tasks
    run_backwards := args.run_backwards
    continue_on_failures := args.continue_on_failures
    disable_retry := args.disable_retry }

/-- The dry-run / real-execution branch of the per-DAG loop body
(source lines 81–127), after task-subset selection. -/
def backfillDagProcessing (cb : Collab) (run_conf : Option ConfVal) (sd ed : Nat)
    (args : Args) (dag : Dag) : List Event :=
  if args.dry_run then
    Event.dryRunHeader dag.dag_id sd ::
      (dag.iter_dagrun_infos_between sd ed).flatMap (dryIntervalEvents dag)
  else
    (if args.reset_dagruns then
      [Event.clearDags dag.dag_id sd ed (!args.yes) true DagRunState.queued]
    else []) ++ dag.run (mkRunCall cb run_conf sd ed args dag)

/-- One iteration of the `for dag in dags` loop of `_run_dag_backfill`
(source lines 71–127): optional task-subset selection with the
empty-selection abort, then the dry-run or real-execution branch.
An empty or absent `task_regex` is falsy in Python, so selection is
skipped for it. -/
def backfillDag (cb : Collab) (run_conf : Option ConfVal) (sd ed : Nat)
    (args : Args) (dag0 : Dag) : RunResult :=
  match args.task_regex with
  | none => ⟨backfillDagProcessing cb run_conf sd ed args dag0, none⟩
  | some r =>
    if r = "" then ⟨backfillDagProcessing cb run_conf sd ed args dag0, none⟩
    else
      let dag := dag0.task_subset cb.re_search r (!args.ignore_dependencies)
      let ev := Event.taskSubset dag0.dag_id r (!args.ignore_dependencies)
        (dag.tasks.map Task.task_id)
      if dag.tasks = [] then ⟨[ev], some (BackfillError.emptySelection r)⟩
      else ⟨ev :: backfillDagProcessing cb run_conf sd ed args dag, none⟩

/-- The `for dag in dags` loop of `_run_dag_backfill`: DAGs are
processed sequentially; an abort in one DAG ends the invocation,
keeping the events already produced. -/
def backfillDags (cb : Collab) (run_conf : Option ConfVal) (sd ed : Nat)
    (args : Args) : List Dag → RunResult
  | [] => ⟨[], none⟩
  | d :: ds =>
    let r := backfillDag cb run_conf sd ed args d
    let rest := backfillDags cb run_conf sd ed args ds
    if r.error = none then ⟨r.events ++ rest.events, rest.error⟩ else r

/-- `_run_dag_backfill` (source lines 62–127): default each missing date
bound to the other one, parse the `conf` payload if present and truthy
(a `json.loads` failure aborts the invocation before any DAG is
processed), then run the per-DAG loop.  The `noneDateCrash` branch
renders the `TypeError` that `None` bounds would cause inside the
collaborators; `dag_backfill` never reaches it. -/
def _run_dag_backfill (cb : Collab) (dags : List Dag) (args : Args) : RunResult :=
  let ed := match args.end_date with
    | some e => some e
    | none => args.start_date
  let sd := match args.start_date with
    | some s => some s
    | none => ed
  let go : Option ConfVal → RunResult := fun run_conf =>
    match sd, ed with
    | some s, some e => backfillDags cb run_conf s e args dags
    | _, _ => ⟨[], some BackfillError.noneDateCrash⟩
  match args.conf with
  | none => go none
  | some cs =>
    if cs = "" then go none
    else
      match cb.json_loads cs with
      | none => ⟨[], some BackfillError.malformedConf⟩
      | some v => go (some v)

/-- The argument mutations `dag_backfill` performs before delegating
(source lines 136–150): `ignore_first_depends_on_past` is forced to
`True` regardless of the caller's value, and the deprecated
`treat_dag_as_regex` flag is folded into `treat_dag_id_as_regex`. -/
def dag_backfill_args (args : Args) : Args :=
  let a := { args with ignore_first_depends_on_past := true }
  if !a.treat_dag_id_as_regex && a.treat_dag_as_regex then
    { a with treat_dag_id_as_regex := a.treat_dag_as_regex }
  else a

/-- `dags.sort(key=lambda d: d.dag_id)` (source line 163): stable sort
of the target workflows by identifier. -/
def sortedDags (dags : List Dag) : List Dag :=
  insertion_sort (fun a b => strLe a.dag_id b.dag_id) dags

/-- `dag_backfill` (source lines 132–166) on an explicitly supplied list
of DAGs (the `get_dags` lookup used when no DAG is passed is an external
collaborator and is not modelled): mutate the argument namespace, abort
when both window bounds are absent, sort the DAGs by identifier and
delegate to `_run_dag_backfill`. -/
def dag_backfill (cb : Collab) (dags : List Dag) (args0 : Args) : RunResult :=
  let args := dag_backfill_args args0
  if args.start_date = none ∧ args.end_date = none then
    ⟨[], some BackfillError.missingDates⟩
  else
    _run_dag_backfill cb (sortedDags dags) args

/-- Events that create or mutate persisted run/task state: the
`clear_dags` reset, the delegation to real execution, and real
execution's per-interval run-record and task-record processing. -/
def Event.mutates_state : Event → Bool
  | .clearDags _ _ _ _ _ _ => true
  | .runCall _ => true
  | .execInterval _ _ _ => true
  | .execTask _ _ _ => true
  | _ => false

/-- Is this event the `DAG.clear_dags` reset call? -/
def Event.is_clear_dags : Event → Bool
  | .clearDags _ _ _ _ _ _ => true
  | _ => false

/-- The logical date of an interval-processing event (the transient
dry-run `DagRun` construction or the real-execution run record). -/
def Event.intervalDate : Event → Option Nat
  | .transientDagRun _ ld _ _ => some ld
  | .execInterval _ ld _ => some ld
  | _ => none

/-- The task identifier this event processes for the interval with
logical date `ld`, if any. -/
def Event.taskFor (ld : Nat) : Event → Option String
  | .tiDryRun _ ld2 tid => if ld2 = ld then some tid else none
  | .execTask _ ld2 tid => if ld2 = ld then some tid else none
  | _ => none

/-- The printed line of a `print` event, if any. -/
def Event.printed : Event → Option String
  | .printLine s => some s
  | _ => none

/-- The logical dates of the intervals an invocation processed, in
processing order. -/
def RunResult.interval_dates (r : RunResult) : List Nat :=
  r.events.filterMap Event.intervalDate

/-- The lines an invocation printed for individual tasks, in order. -/
def RunResult.printed_lines (r : RunResult) : List String :=
  r.events.filterMap Event.printed

/-- Holds of an event unless it is a `DAG.run` delegation whose
`ignore_first_depends_on_past` keyword is `false`. -/
def respects_forced_first_dop (ev : Event) : Bool :=
  match ev with
  | Event.runCall rc => rc.ignore_first_depends_on_past
  | _ => true

/-- Holds of an event iff its dependency-related flags are tied to the
single `ignore_dependencies` input `igd`: a subset selection must use
`include_upstream = !igd` and a `DAG.run` delegation must use
`ignore_task_deps = igd`. -/
def linked_dependency_flags (igd : Bool) (ev : Event) : Bool :=
  match ev with
  | Event.taskSubset _ _ incl _ => incl == !igd
  | Event.runCall rc => rc.ignore_task_deps == igd
  | _ => true

/-- A concrete `json.loads` stand-in for concrete test invocations:
exactly the payload `[1]` parses. -/
def json_loads_X (s : String) : Option ConfVal :=
  if s = "[1]" then some ⟨s⟩ else none

/-- Concrete collaborators for concrete test invocations; the pattern
matcher is exact identifier equality. -/
def collabX : Collab := ⟨json_loads_X, fun pat tid => pat == tid, false⟩

/-- A baseline argument namespace for concrete test invocations. -/
def argsBase : Args :=
  { start_date := some 0, end_date := some 5, conf := none, task_regex := none,
    ignore_dependencies := false, dry_run := false, reset_dagruns := false, yes := false,
    mark_success := false, local_mode := false, donot_pickle := false,
    ignore_first_depends_on_past := false, pool := none, delay_on_limit := 0, verbose := false,
    rerun_failed_tasks := false, run_backwards := false, continue_on_failures := false,
    disable_retry := false, treat_dag_id_as_regex := false, treat_dag_as_regex := false }

/-- A concrete workflow with one task and two schedule intervals. -/
def dagX : Dag := ⟨"dx", [⟨"t0", []⟩], [⟨1, 2, 1⟩, ⟨2, 3, 2⟩]⟩

/-- A concrete workflow with the chain t0 → t1 → t2. -/
def dagW : Dag := ⟨"dw", [⟨"t0", []⟩, ⟨"t1", ["t0"]⟩, ⟨"t2", ["t1"]⟩], [⟨1, 2, 1⟩]⟩

/-- A concrete workflow whose single task is named `t`. -/
def dagA : Dag := ⟨"da", [⟨"t", []⟩], [⟨1, 2, 1⟩]⟩

/-- A concrete workflow whose single task is named `u`. -/
def dagB : Dag := ⟨"db", [⟨"u", []⟩], [⟨1, 2, 1⟩]⟩

theorem perm_ordered_insert {α : Type} (le : α → α → Bool) (a : α) (l : List α) :
    (ordered_insert le a l).Perm (a :: l) := by
  induction l with
  | nil => simp [ordered_insert]
  | cons b l ih =>
    simp only [ordered_insert]
    split
    · exact List.Perm.refl _
    · exact (List.Perm.cons b ih).trans (List.Perm.swap a b l)

theorem perm_insertion_sort {α : Type} (le : α → α → Bool) (l : List α) :
    (insertion_sort le l).Perm l := by
  induction l with
  | nil => simp [insertion_sort]
  | cons a l ih =>
    exact (perm_ordered_insert le a (insertion_sort le l)).trans (List.Perm.cons a ih)

theorem sorted_ordered_insert {α : Type} (le : α → α → Bool)
    (htot : ∀ a b, le a b = true ∨ le b a = true)
    (htrans : ∀ a b c, le a b = true → le b c = true → le a c = true)
    (a : α) (l : List α) (hl : l.Pairwise (fun x y => le x y = true)) :
    (ordered_insert le a l).Pairwise (fun x y => le x y = true) := by
  induction l with
  | nil => simp [ordered_insert]
  | cons b l ih =>
    rcases List.pairwise_cons.mp hl with ⟨hb, hl'⟩
    simp only [ordered_insert]
    split
    · rename_i hab
      refine List.pairwise_cons.mpr ⟨?_, hl⟩
      intro y hy
      rcases List.mem_cons.mp hy with rfl | hy
      · exact hab
      · exact htrans a b y hab (hb y hy)
    · rename_i hab
      have hba : le b a = true := by
        rcases htot a b with h | h
        · exact absurd h hab
        · exact h
      refine List.pairwise_cons.mpr ⟨?_, ih hl'⟩
      intro y hy
      rcases List.mem_cons.mp ((perm_ordered_insert le a l).mem_iff.mp hy) with rfl | hy'
      · exact hba
      · exact hb y hy'

theorem sorted_insertion_sort {α : Type} (le : α → α → Bool)
    (htot : ∀ a b, le a b = true ∨ le b a = true)
    (htrans : ∀ a b c, le a b = true → le b c = true → le a c = true)
    (l : List α) :
    (insertion_sort le l).Pairwise (fun x y => le x y = true) := by
  induction l with
  | nil => simp [insertion_sort]
  | cons a l ih => exact sorted_ordered_insert le htot htrans a _ ih

theorem lexLe_cons_iff (a b : Char) (as bs : List Char) :
    lexLe (a :: as) (b :: bs) = true ↔ a < b ∨ (a = b ∧ lexLe as bs = true) := by
  simp only [lexLe]
  by_cases h1 : a < b
  · simp [h1]
  · by_cases h2 : a = b
    · simp [h1, h2]
    · simp [h1, h2]

theorem lexLe_total (as : List Char) : ∀ bs, lexLe as bs = true ∨ lexLe bs as = true := by
  induction as with
  | nil => intro bs; left; rfl
  | cons a as ih =>
    intro bs
    cases bs with
    | nil => right; rfl
    | cons b bs =>
      by_cases hab : a < b
      · left; exact (lexLe_cons_iff a b as bs).mpr (Or.inl hab)
      · by_cases heq : a = b
        · rcases ih bs with h | h
          · left; exact (lexLe_cons_iff a b as bs).mpr (Or.inr ⟨heq, h⟩)
          · right; exact (lexLe_cons_iff b a bs as).mpr (Or.inr ⟨heq.symm, h⟩)
        · have hba : b < a := by
            rcases lt_trichotomy a b with h | h | h
            · exact absurd h hab
            · exact absurd h heq
            · exact h
          right; exact (lexLe_cons_iff b a bs as).mpr (Or.inl hba)

theorem lexLe_trans (as : List Char) :
    ∀ bs cs, lexLe as bs = true → lexLe bs cs = true → lexLe as cs = true := by
  induction as with
  | nil => intro bs cs _ _; rfl
  | cons a as ih =>
    intro bs cs h1 h2
    cases bs with
    | nil => exact absurd h1 (by simp [lexLe])
    | cons b bs =>
      cases cs with
      | nil => exact absurd h2 (by simp [lexLe])
      | cons c cs =>
        rcases (lexLe_cons_iff a b as bs).mp h1 with hab | ⟨hab, hab2⟩
        · rcases (lexLe_cons_iff b c bs cs).mp h2 with hbc | ⟨hbc, hbc2⟩
          · exact (lexLe_cons_iff a c as cs).mpr (Or.inl (lt_trans hab hbc))
          · exact (lexLe_cons_iff a c as cs).mpr (Or.inl (by rw [← hbc]; exact hab))
        · rcases (lexLe_cons_iff b c bs cs).mp h2 with hbc | ⟨hbc, hbc2⟩
          · exact (lexLe_cons_iff a c as cs).mpr (Or.inl (by rw [hab]; exact hbc))
          · exact (lexLe_cons_iff a c as cs).mpr (Or.inr ⟨hab.trans hbc, ih bs cs hab2 hbc2⟩)

theorem lexLe_antisymm (as : List Char) :
    ∀ bs, lexLe as bs = true → lexLe bs as = true → as = bs := by
  induction as with
  | nil =>
    intro bs _ h2
    cases bs with
    | nil => rfl
    | cons b bs => exact absurd h2 (by simp [lexLe])
  | cons a as ih =>
    intro bs h1 h2
    cases bs with
    | nil => exact absurd h1 (by simp [lexLe])
    | cons b bs =>
      rcases (lexLe_cons_iff a b as bs).mp h1 with hab | ⟨hab, hab2⟩
      · rcases (lexLe_cons_iff b a bs as).mp h2 with hba | ⟨hba, _⟩
        · exact absurd hba (lt_asymm hab)
        · rw [hba] at hab; exact absurd hab (lt_irrefl a)
      · rcases (lexLe_cons_iff b a bs as).mp h2 with hba | ⟨_, hba2⟩
        · rw [hab] at hba; exact absurd hba (lt_irrefl b)
        · rw [hab, ih bs hab2 hba2]

theorem strLe_total (a b : String) : strLe a b = true ∨ strLe b a = true :=
  lexLe_total a.data b.data

theorem strLe_trans (a b c : String) :
    strLe a b = true → strLe b c = true → strLe a c = true :=
  lexLe_trans a.data b.data c.data

theorem strLe_antisymm (a b : String) :
    strLe a b = true → strLe b a = true → a = b := by
  intro h1 h2
  have hd := lexLe_antisymm a.data b.data h1 h2
  cases a; cases b
  exact congrArg String.mk hd

/-- C10: when an invocation targets several workflows, they are
backfilled sequentially in ascending workflow-identifier order
(code-point lexicographic order on `dag_id`), independent of the order
in which the caller supplied them: `dag_backfill` hands
`_run_dag_backfill` the identifier-sorted list, whose identifier
sequence is sorted and is the same for any permutation of the input. -/
theorem claim_C10 (dags1 dags2 : List Dag) (h : dags1.Perm dags2) :
    ((sortedDags dags1).map Dag.dag_id).Pairwise (fun a b => strLe a b = true) ∧
    (sortedDags dags1).map Dag.dag_id = (sortedDags dags2).map Dag.dag_id ∧
    ∀ cb args, dag_backfill cb dags1 args =
      (if (dag_backfill_args args).start_date = none ∧ (dag_backfill_args args).end_date = none
        then ⟨[], some BackfillError.missingDates⟩
        else _run_dag_backfill cb (sortedDags dags1) (dag_backfill_args args)) := by
  have htot : ∀ x y : Dag, strLe x.dag_id y.dag_id = true ∨ strLe y.dag_id x.dag_id = true :=
    fun x y => strLe_total x.dag_id y.dag_id
  have htrans : ∀ x y z : Dag, strLe x.dag_id y.dag_id = true →
      strLe y.dag_id z.dag_id = true → strLe x.dag_id z.dag_id = true :=
    fun x y z => strLe_trans x.dag_id y.dag_id z.dag_id
  have hs1 := sorted_insertion_sort (fun a b : Dag => strLe a.dag_id b.dag_id) htot htrans dags1
  have hs2 := sorted_insertion_sort (fun a b : Dag => strLe a.dag_id b.dag_id) htot htrans dags2
  have hm1 : ((sortedDags dags1).map Dag.dag_id).Pairwise (fun a b => strLe a b = true) :=
    List.pairwise_map.mpr hs1
  have hm2 : ((sortedDags dags2).map Dag.dag_id).Pairwise (fun a b => strLe a b = true) :=
    List.pairwise_map.mpr hs2
  refine ⟨hm1, ?_, fun cb args => rfl⟩
  have hp : ((sortedDags dags1).map Dag.dag_id).Perm ((sortedDags dags2).map Dag.dag_id) :=
    (((perm_insertion_sort _ dags1).trans h).trans
      (perm_insertion_sort _ dags2).symm).map Dag.dag_id
  exact @List.eq_of_perm_of_sorted String (fun a b => strLe a b = true)
    ⟨fun a b h1 h2 => strLe_antisymm a b h1 h2⟩ _ _ hp hm1 hm2

/-- Witness for C10 at a concrete pair of permuted two-workflow lists:
both orders of supplying `dagA`/`dagB` yield the same processing
sequence of identifiers. -/
theorem claim_C10_witness :
    (sortedDags [dagB, dagA]).map Dag.dag_id = (sortedDags [dagA, dagB]).map Dag.dag_id :=
  (claim_C10 [dagB, dagA] [dagA, dagB] (List.Perm.swap dagA dagB [])).2.1

theorem dag_backfill_args_spec (a : Args) :
    (dag_backfill_args a).start_date = a.start_date ∧
    (dag_backfill_args a).end_date = a.end_date ∧
    (dag_backfill_args a).conf = a.conf ∧
    (dag_backfill_args a).task_regex = a.task_regex ∧
    (dag_backfill_args a).ignore_dependencies = a.ignore_dependencies ∧
    (dag_backfill_args a).dry_run = a.dry_run ∧
    (dag_backfill_args a).reset_dagruns = a.reset_dagruns ∧
    (dag_backfill_args a).yes = a.yes ∧
    (dag_backfill_args a).run_backwards = a.run_backwards ∧
    (dag_backfill_args a).ignore_first_depends_on_past = true := by
  by_cases h : (!a.treat_dag_id_as_regex && a.treat_dag_as_regex) = true <;>
    simp [dag_backfill_args, h]

theorem mem_backfillDagProcessing {cb : Collab} {rc : Option ConfVal} {sd ed : Nat}
    {args : Args} {dag : Dag} {ev : Event}
    (hev : ev ∈ backfillDagProcessing cb rc sd ed args dag) :
    (args.dry_run = true ∧
      ((∃ d s, ev = Event.dryRunHeader d s) ∨
       (∃ d ld a b, ev = Event.transientDagRun d ld a b) ∨
       (∃ s, ev = Event.printLine s) ∨
       (∃ d ld t, ev = Event.tiDryRun d ld t))) ∨
    (args.dry_run = false ∧
      ((args.reset_dagruns = true ∧
          ev = Event.clearDags dag.dag_id sd ed (!args.yes) true DagRunState.queued) ∨
       ev = Event.runCall (mkRunCall cb rc sd ed args dag) ∨
       (∃ d ld s, ev = Event.execInterval d ld s) ∨
       (∃ d ld t, ev = Event.execTask d ld t))) := by
  unfold backfillDagProcessing at hev
  split at hev
  · rename_i hdry
    refine Or.inl ⟨hdry, ?_⟩
    rcases List.mem_cons.mp hev with rfl | hev
    · exact Or.inl ⟨_, _, rfl⟩
    · rcases List.mem_flatMap.mp hev with ⟨i, _, hseg⟩
      unfold dryIntervalEvents at hseg
      rcases List.mem_cons.mp hseg with rfl | hseg
      · exact Or.inr (Or.inl ⟨_, _, _, _, rfl⟩)
      · rcases List.mem_flatMap.mp hseg with ⟨t, _, htev⟩
        simp only [List.mem_cons, List.not_mem_nil, or_false] at htev
        rcases htev with rfl | rfl
        · exact Or.inr (Or.inr (Or.inl ⟨_, rfl⟩))
        · exact Or.inr (Or.inr (Or.inr ⟨_, _, _, rfl⟩))
  · rename_i hdry
    refine Or.inr ⟨by simpa using hdry, ?_⟩
    rcases List.mem_append.mp hev with hev | hev
    · split at hev
      · rename_i hreset
        simp only [List.mem_cons, List.not_mem_nil, or_false] at hev
        exact Or.inl ⟨hreset, hev⟩
      · simp at hev
    · simp only [Dag.run] at hev
      rcases List.mem_cons.mp hev with rfl | hev
      · exact Or.inr (Or.inl rfl)
      · rcases List.mem_flatMap.mp hev with ⟨i, _, hseg⟩
        unfold execIntervalEvents at hseg
        rcases List.mem_cons.mp hseg with rfl | hseg
        · exact Or.inr (Or.inr (Or.inl ⟨_, _, _, rfl⟩))
        · rcases List.mem_map.mp hseg with ⟨t, _, rfl⟩
          exact Or.inr (Or.inr (Or.inr ⟨_, _, _, rfl⟩))

theorem mem_backfillDag {cb : Collab} {rc : Option ConfVal} {sd ed : Nat}
    {args : Args} {dag0 : Dag} {ev : Event}
    (hev : ev ∈ (backfillDag cb rc sd ed args dag0).events) :
    (∃ r, args.task_regex = some r ∧ r ≠ "" ∧
      ev = Event.taskSubset dag0.dag_id r (!args.ignore_dependencies)
        ((dag0.task_subset cb.re_search r (!args.ignore_dependencies)).tasks.map Task.task_id)) ∨
    (∃ dag, ev ∈ backfillDagProcessing cb rc sd ed args dag) := by
  rcases hreg : args.task_regex with _ | r
  · simp only [backfillDag, hreg] at hev
    exact Or.inr ⟨dag0, hev⟩
  · simp only [backfillDag, hreg] at hev
    split at hev
    · exact Or.inr ⟨dag0, hev⟩
    · rename_i hr
      split at hev
      · simp only [List.mem_cons, List.not_mem_nil, or_false] at hev
        rename_i hempty
        refine Or.inl ⟨r, rfl, hr, ?_⟩
        simp [hev, hempty]
      · rcases List.mem_cons.mp hev with rfl | hev
        · exact Or.inl ⟨r, rfl, hr, rfl⟩
        · exact Or.inr ⟨_, hev⟩

theorem mem_backfillDags {cb : Collab} {rc : Option ConfVal} {sd ed : Nat}
    {args : Args} {ev : Event} {ds : List Dag}
    (hev : ev ∈ (backfillDags cb rc sd ed args ds).events) :
    ∃ d, d ∈ ds ∧ ev ∈ (backfillDag cb rc sd ed args d).events := by
  induction ds with
  | nil => simp [backfillDags] at hev
  | cons d ds ih =>
    simp only [backfillDags] at hev
    split at hev
    · rcases List.mem_append.mp hev with h | h
      · exact ⟨d, List.mem_cons_self d ds, h⟩
      · rcases ih h with ⟨d', hd', h'⟩
        exact ⟨d', List.mem_cons_of_mem d hd', h'⟩
    · exact ⟨d, List.mem_cons_self d ds, hev⟩

theorem mem_run_dag_backfill {cb : Collab} {dags : List Dag} {args : Args} {ev : Event}
    (hev : ev ∈ (_run_dag_backfill cb dags args).events) :
    ∃ rc sd ed d, d ∈ dags ∧ ev ∈ (backfillDag cb rc sd ed args d).events := by
  simp only [_run_dag_backfill] at hev
  rcases hc : args.conf with _ | cs <;> simp only [hc] at hev
  · rcases hsd : args.start_date with _ | s <;> rcases hed : args.end_date with _ | e <;>
      simp only [hsd, hed] at hev
    · simp at hev
    · rcases mem_backfillDags hev with ⟨d, hd, h⟩
      exact ⟨none, _, _, d, hd, h⟩
    · rcases mem_backfillDags hev with ⟨d, hd, h⟩
      exact ⟨none, _, _, d, hd, h⟩
    · rcases mem_backfillDags hev with ⟨d, hd, h⟩
      exact ⟨none, _, _, d, hd, h⟩
  · split at hev
    · rcases hsd : args.start_date with _ | s <;> rcases hed : args.end_date with _ | e <;>
        simp only [hsd, hed] at hev
      · simp at hev
      · rcases mem_backfillDags hev with ⟨d, hd, h⟩
        exact ⟨none, _, _, d, hd, h⟩
      · rcases mem_backfillDags hev with ⟨d, hd, h⟩
        exact ⟨none, _, _, d, hd, h⟩
      · rcases mem_backfillDags hev with ⟨d, hd, h⟩
        exact ⟨none, _, _, d, hd, h⟩
    · rcases hj : cb.json_loads cs with _ | v <;> simp only [hj] at hev
      · simp at hev
      · rcases hsd : args.start_date with _ | s <;> rcases hed : args.end_date with _ | e <;>
          simp only [hsd, hed] at hev
        · simp at hev
        · rcases mem_backfillDags hev with ⟨d, hd, h⟩
          exact ⟨some v, _, _, d, hd, h⟩
        · rcases mem_backfillDags hev with ⟨d, hd, h⟩
          exact ⟨some v, _, _, d, hd, h⟩
        · rcases mem_backfillDags hev with ⟨d, hd, h⟩
          exact ⟨some v, _, _, d, hd, h⟩

theorem mem_dag_backfill {cb : Collab} {dags : List Dag} {args : Args} {ev : Event}
    (hev : ev ∈ (dag_backfill cb dags args).events) :
    ∃ rc sd ed d, d ∈ sortedDags dags ∧
      ev ∈ (backfillDag cb rc sd ed (dag_backfill_args args) d).events := by
  simp only [dag_backfill] at hev
  split at hev
  · simp at hev
  · exact mem_run_dag_backfill hev

/-- C8: for every invocation, the `ignore_first_depends_on_past` option
passed to execution is `true`, regardless of the caller's input value
for that flag: every `DAG.run` delegation event in the trace carries
`ignore_first_depends_on_past = true`. -/
theorem claim_C8 (cb : Collab) (dags : List Dag) (args : Args) :
    (dag_backfill cb dags args).events.all respects_forced_first_dop = true := by
  rw [List.all_eq_true]
  intro ev hev
  rcases mem_dag_backfill hev with ⟨rc, sd, ed, d, _, hd⟩
  rcases mem_backfillDag hd with ⟨r, _, _, rfl⟩ | ⟨dag, hp⟩
  · rfl
  · rcases mem_backfillDagProcessing hp with ⟨_, h⟩ | ⟨_, h⟩
    · rcases h with ⟨_, _, rfl⟩ | ⟨_, _, _, _, rfl⟩ | ⟨_, rfl⟩ | ⟨_, _, _, rfl⟩ <;> rfl
    · rcases h with ⟨_, rfl⟩ | rfl | ⟨_, _, _, rfl⟩ | ⟨_, _, _, rfl⟩
      · rfl
      · show (mkRunCall cb rc sd ed (dag_backfill_args args) dag).ignore_first_depends_on_past = true
        show (dag_backfill_args args).ignore_first_depends_on_past = true
        exact (dag_backfill_args_spec args).2.2.2.2.2.2.2.2.2
      · rfl
      · rfl

/-- C9: for every invocation, the upstream-inclusion toggle of task
selection is exactly the negation of the `ignore_dependencies` flag, and
the same flag is passed as the `ignore_task_deps` bypass to execution;
there is no independent upstream-inclusion input (the `Args` surface has
none). -/
theorem claim_C9 (cb : Collab) (dags : List Dag) (args : Args) :
    (dag_backfill cb dags args).events.all
      (linked_dependency_flags args.ignore_dependencies) = true := by
  rw [List.all_eq_true]
  intro ev hev
  rcases mem_dag_backfill hev with ⟨rc, sd, ed, d, _, hd⟩
  have higd : (dag_backfill_args args).ignore_dependencies = args.ignore_dependencies :=
    (dag_backfill_args_spec args).2.2.2.2.1
  rcases mem_backfillDag hd with ⟨r, _, _, rfl⟩ | ⟨dag, hp⟩
  · show ((!(dag_backfill_args args).ignore_dependencies) == !args.ignore_dependencies) = true
    rw [higd]
    exact beq_self_eq_true _
  · rcases mem_backfillDagProcessing hp with ⟨_, h⟩ | ⟨_, h⟩
    · rcases h with ⟨_, _, rfl⟩ | ⟨_, _, _, _, rfl⟩ | ⟨_, rfl⟩ | ⟨_, _, _, rfl⟩ <;> rfl
    · rcases h with ⟨_, rfl⟩ | rfl | ⟨_, _, _, rfl⟩ | ⟨_, _, _, rfl⟩
      · rfl
      · show ((mkRunCall cb rc sd ed (dag_backfill_args args) dag).ignore_task_deps
            == args.ignore_dependencies) = true
        show ((dag_backfill_args args).ignore_dependencies == args.ignore_dependencies) = true
        rw [higd]
        exact beq_self_eq_true _
      · rfl
      · rfl

/-- C5: a dry-run invocation, however often repeated (the model is a
pure function of its inputs), never creates or mutates persisted
run/task state and never advances real execution: no event of its trace
is state-mutating. -/
theorem claim_C5 (cb : Collab) (dags : List Dag) (args : Args)
    (h : args.dry_run = true) :
    (dag_backfill cb dags args).events.all (fun ev => !ev.mutates_state) = true := by
  rw [List.all_eq_true]
  intro ev hev
  rcases mem_dag_backfill hev with ⟨rc, sd, ed, d, _, hd⟩
  rcases mem_backfillDag hd with ⟨r, _, _, rfl⟩ | ⟨dag, hp⟩
  · rfl
  · rcases mem_backfillDagProcessing hp with ⟨_, hshape⟩ | ⟨hdry, _⟩
    · rcases hshape with ⟨_, _, rfl⟩ | ⟨_, _, _, _, rfl⟩ | ⟨_, rfl⟩ | ⟨_, _, _, rfl⟩ <;> rfl
    · rw [(dag_backfill_args_spec args).2.2.2.2.2.1, h] at hdry
      cases hdry

/-- Witness for C5 at a concrete dry-run invocation. -/
theorem claim_C5_witness :
    (dag_backfill collabX [dagX]
      { argsBase with dry_run := true }).events.all (fun ev => !ev.mutates_state) = true :=
  claim_C5 collabX [dagX] { argsBase with dry_run := true } rfl

theorem backfillDag_error_shape {cb : Collab} {rc : Option ConfVal} {sd ed : Nat}
    {args : Args} {d : Dag} {err : BackfillError}
    (herr : (backfillDag cb rc sd ed args d).error = some err) :
    ∃ r, err = BackfillError.emptySelection r := by
  rcases hreg : args.task_regex with _ | r
  · simp [backfillDag, hreg] at herr
  · simp only [backfillDag, hreg] at herr
    split at herr
    · simp at herr
    · split at herr
      · exact ⟨r, by simpa using herr.symm⟩
      · simp at herr

theorem backfillDags_error_shape {cb : Collab} {rc : Option ConfVal} {sd ed : Nat}
    {args : Args} {ds : List Dag} {err : BackfillError}
    (herr : (backfillDags cb rc sd ed args ds).error = some err) :
    ∃ r, err = BackfillError.emptySelection r := by
  induction ds with
  | nil => simp [backfillDags] at herr
  | cons d ds ih =>
    simp only [backfillDags] at herr
    split at herr
    · exact ih herr
    · exact backfillDag_error_shape herr

/-- C4: the invocation fails fast with a `ConfigError` — terminating
before any event is produced (no interval processed, no run record
created, no state mutated) — exactly when the structured `conf` payload
is present, truthy and malformed, or when both bounds of the time
window are absent. -/
theorem claim_C4 (cb : Collab) (dags : List Dag) (args : Args) :
    ((∃ err, (dag_backfill cb dags args).error = some err ∧ err.isConfigError = true) ∧
      (dag_backfill cb dags args).events = [])
    ↔ ((args.start_date = none ∧ args.end_date = none) ∨
       (∃ s, args.conf = some s ∧ s ≠ "" ∧ cb.json_loads s = none)) := by
  obtain ⟨h1, h2, h3, -⟩ := dag_backfill_args_spec args
  by_cases hboth : args.start_date = none ∧ args.end_date = none
  · have hres : dag_backfill cb dags args = ⟨[], some BackfillError.missingDates⟩ := by
      simp only [dag_backfill, h1, h2]
      rw [if_pos hboth]
    rw [hres]
    exact iff_of_true ⟨⟨BackfillError.missingDates, rfl, rfl⟩, rfl⟩ (Or.inl hboth)
  · have hnotgo : ∀ rc s e,
        ¬ ((∃ err,
              (backfillDags cb rc s e (dag_backfill_args args) (sortedDags dags)).error
                = some err ∧ err.isConfigError = true) ∧
            (backfillDags cb rc s e (dag_backfill_args args) (sortedDags dags)).events = []) := by
      rintro rc s e ⟨⟨err, herr, hcfg⟩, -⟩
      rcases backfillDags_error_shape herr with ⟨r, rfl⟩
      simp [BackfillError.isConfigError] at hcfg
    rcases hc : args.conf with _ | cs
    · rcases hs : args.start_date with _ | s <;> rcases he : args.end_date with _ | e
      · exact absurd ⟨hs, he⟩ hboth
      · have hres : dag_backfill cb dags args =
            backfillDags cb none e e (dag_backfill_args args) (sortedDags dags) := by
          simp only [dag_backfill, h1, h2]
          rw [if_neg hboth]
          simp only [_run_dag_backfill, h1, h2, h3, hc, hs, he]
        rw [hres]
        exact iff_of_false (hnotgo none e e) (by simp)
      · have hres : dag_backfill cb dags args =
            backfillDags cb none s s (dag_backfill_args args) (sortedDags dags) := by
          simp only [dag_backfill, h1, h2]
          rw [if_neg hboth]
          simp only [_run_dag_backfill, h1, h2, h3, hc, hs, he]
        rw [hres]
        exact iff_of_false (hnotgo none s s) (by simp)
      · have hres : dag_backfill cb dags args =
            backfillDags cb none s e (dag_backfill_args args) (sortedDags dags) := by
          simp only [dag_backfill, h1, h2]
          rw [if_neg hboth]
          simp only [_run_dag_backfill, h1, h2, h3, hc, hs, he]
        rw [hres]
        exact iff_of_false (hnotgo none s e) (by simp)
    · by_cases hcs : cs = ""
      · rcases hs : args.start_date with _ | s <;> rcases he : args.end_date with _ | e
        · exact absurd ⟨hs, he⟩ hboth
        · have hres : dag_backfill cb dags args =
              backfillDags cb none e e (dag_backfill_args args) (sortedDags dags) := by
            simp only [dag_backfill, h1, h2]
            rw [if_neg hboth]
            simp only [_run_dag_backfill, h1, h2, h3, hc, hs, he, if_pos hcs]
          rw [hres]
          exact iff_of_false (hnotgo none e e) (by simp [hcs])
        · have hres : dag_backfill cb dags args =
              backfillDags cb none s s (dag_backfill_args args) (sortedDags dags) := by
            simp only [dag_backfill, h1, h2]
            rw [if_neg hboth]
            simp only [_run_dag_backfill, h1, h2, h3, hc, hs, he, if_pos hcs]
          rw [hres]
          exact iff_of_false (hnotgo none s s) (by simp [hcs])
        · have hres : dag_backfill cb dags args =
              backfillDags cb none s e (dag_backfill_args args) (sortedDags dags) := by
            simp only [dag_backfill, h1, h2]
            rw [if_neg hboth]
            simp only [_run_dag_backfill, h1, h2, h3, hc, hs, he, if_pos hcs]
          rw [hres]
          exact iff_of_false (hnotgo none s e) (by simp [hcs])
      · rcases hj : cb.json_loads cs with _ | v
        · have hres : dag_backfill cb dags args = ⟨[], some BackfillError.malformedConf⟩ := by
            simp only [dag_backfill, h1, h2]
            rw [if_neg hboth]
            simp only [_run_dag_backfill, h1, h2, h3, hc, hj, if_neg hcs]
          rw [hres]
          exact iff_of_true ⟨⟨BackfillError.malformedConf, rfl, rfl⟩, rfl⟩
            (Or.inr ⟨cs, rfl, hcs, hj⟩)
        · rcases hs : args.start_date with _ | s <;> rcases he : args.end_date with _ | e
          · exact absurd ⟨hs, he⟩ hboth
          · have hres : dag_backfill cb dags args =
                backfillDags cb (some v) e e (dag_backfill_args args) (sortedDags dags) := by
              simp only [dag_backfill, h1, h2]
              rw [if_neg hboth]
              simp only [_run_dag_backfill, h1, h2, h3, hc, hs, he, hj, if_neg hcs]
            rw [hres]
            exact iff_of_false (hnotgo (some v) e e) (by simp [hj])
          · have hres : dag_backfill cb dags args =
                backfillDags cb (some v) s s (dag_backfill_args args) (sortedDags dags) := by
              simp only [dag_backfill, h1, h2]
              rw [if_neg hboth]
              simp only [_run_dag_backfill, h1, h2, h3, hc, hs, he, hj, if_neg hcs]
            rw [hres]
            exact iff_of_false (hnotgo (some v) s s) (by simp [hj])
          · have hres : dag_backfill cb dags args =
                backfillDags cb (some v) s e (dag_backfill_args args) (sortedDags dags) := by
              simp only [dag_backfill, h1, h2]
              rw [if_neg hboth]
              simp only [_run_dag_backfill, h1, h2, h3, hc, hs, he, hj, if_neg hcs]
            rw [hres]
            exact iff_of_false (hnotgo (some v) s e) (by simp [hj])

theorem dag_backfill_eq_dags (cb : Collab) (dags : List Dag) (args : Args) {sd ed : Nat}
    (hconf : args.conf = none) (hs : args.start_date = some sd)
    (he : args.end_date = some ed) :
    dag_backfill cb dags args =
      backfillDags cb none sd ed (dag_backfill_args args) (sortedDags dags) := by
  obtain ⟨h1, h2, h3, -⟩ := dag_backfill_args_spec args
  simp only [dag_backfill, h1, h2]
  rw [if_neg (by simp [hs])]
  simp only [_run_dag_backfill, h1, h2, h3, hconf, hs, he]

theorem backfillDag_noregex {cb : Collab} {rc : Option ConfVal} {sd ed : Nat}
    {args : Args} (d : Dag) (hregex : args.task_regex = none) :
    backfillDag cb rc sd ed args d = ⟨backfillDagProcessing cb rc sd ed args d, none⟩ := by
  simp [backfillDag, hregex]

theorem backfillDags_single_ok {cb : Collab} {rc : Option ConfVal} {sd ed : Nat}
    {args : Args} (d : Dag)
    (hok : (backfillDag cb rc sd ed args d).error = none) :
    backfillDags cb rc sd ed args [d] = ⟨(backfillDag cb rc sd ed args d).events, none⟩ := by
  simp only [backfillDags]
  rw [if_pos hok]
  simp

theorem intervalDate_dry_tasks (did : String) (ld : Nat) (tasks : List Task) :
    (tasks.flatMap (fun t =>
      [Event.printLine (located_line t.task_id did),
       Event.tiDryRun did ld t.task_id])).filterMap Event.intervalDate = [] := by
  induction tasks with
  | nil => rfl
  | cons t tasks ih =>
    simp only [List.flatMap_cons, List.filterMap_append, ih]
    rfl

theorem interval_dates_dry (dag : Dag) (infos : List DagRunInfo) :
    (infos.flatMap (dryIntervalEvents dag)).filterMap Event.intervalDate
      = infos.map DagRunInfo.logical_date := by
  induction infos with
  | nil => rfl
  | cons i infos ih =>
    simp only [List.flatMap_cons, List.filterMap_append, ih, List.map_cons]
    unfold dryIntervalEvents
    simp only [List.filterMap_cons, Event.intervalDate, intervalDate_dry_tasks]
    rfl

theorem intervalDate_exec_tasks (did : String) (ld : Nat) (tasks : List Task) :
    (tasks.map (fun t => Event.execTask did ld t.task_id)).filterMap
      Event.intervalDate = [] := by
  induction tasks with
  | nil => rfl
  | cons t tasks ih =>
    simp only [List.map_cons, List.filterMap_cons, ih]
    rfl

theorem interval_dates_exec (dag : Dag) (infos : List DagRunInfo) :
    (infos.flatMap (execIntervalEvents dag)).filterMap Event.intervalDate
      = infos.map DagRunInfo.logical_date := by
  induction infos with
  | nil => rfl
  | cons i infos ih =>
    simp only [List.flatMap_cons, List.filterMap_append, ih, List.map_cons]
    unfold execIntervalEvents
    simp only [List.filterMap_cons, Event.intervalDate, intervalDate_exec_tasks]
    rfl

theorem processing_interval_dates_dry {cb : Collab} {rc : Option ConfVal} {sd ed : Nat}
    {args : Args} (dag : Dag) (h : args.dry_run = true) :
    (backfillDagProcessing cb rc sd ed args dag).filterMap Event.intervalDate
      = (dag.iter_dagrun_infos_between sd ed).map DagRunInfo.logical_date := by
  unfold backfillDagProcessing
  rw [if_pos (by rw [h])]
  simp only [List.filterMap_cons, Event.intervalDate, interval_dates_dry]

theorem processing_interval_dates_real {cb : Collab} {rc : Option ConfVal} {sd ed : Nat}
    {args : Args} (dag : Dag) (h : args.dry_run = false) :
    (backfillDagProcessing cb rc sd ed args dag).filterMap Event.intervalDate
      = (if args.run_backwards
          then ((dag.iter_dagrun_infos_between sd ed).map DagRunInfo.logical_date).reverse
          else (dag.iter_dagrun_infos_between sd ed).map DagRunInfo.logical_date) := by
  unfold backfillDagProcessing
  rw [if_neg (by rw [h]; exact Bool.false_ne_true)]
  rw [List.filterMap_append]
  have hreset : (if args.reset_dagruns
      then [Event.clearDags dag.dag_id sd ed (!args.yes) true DagRunState.queued]
      else []).filterMap Event.intervalDate = [] := by
    split <;> rfl
  rw [hreset, List.nil_append]
  simp only [Dag.run, List.filterMap_cons, Event.intervalDate]
  have hrb : (mkRunCall cb rc sd ed args dag).run_backwards = args.run_backwards := rfl
  have hsd2 : (mkRunCall cb rc sd ed args dag).start_date = sd := rfl
  have hed2 : (mkRunCall cb rc sd ed args dag).end_date = ed := rfl
  rw [hrb, hsd2, hed2]
  by_cases hb : args.run_backwards = true
  · rw [if_pos hb, if_pos hb, interval_dates_exec, List.map_reverse]
  · rw [if_neg hb, if_neg hb, interval_dates_exec]

/-- The enumerated window of a schedule with ascending logical dates is
itself ascending. -/
theorem iter_sorted (dag : Dag) (sd ed : Nat)
    (hasc : (dag.schedule_infos.map DagRunInfo.logical_date).Sorted (· ≤ ·)) :
    ((dag.iter_dagrun_infos_between sd ed).map DagRunInfo.logical_date).Sorted (· ≤ ·) := by
  unfold Dag.iter_dagrun_infos_between
  exact List.Pairwise.sublist ((List.filter_sublist _).map DagRunInfo.logical_date) hasc

/-- C1 as stated is false: in dry-run mode the source never consults
`run_backwards` (it calls the enumerator with no direction and walks the
result forwards), so a dry run with `run_backwards` set processes the
intervals ascending — here logical dates `[1, 2]` — not descending
`[2, 1]` as the claim requires. -/
theorem claim_C1_counterexample :
    ({ argsBase with dry_run := true, run_backwards := true } : Args).run_backwards = true ∧
    (dag_backfill collabX [dagX]
      { argsBase with dry_run := true, run_backwards := true }).interval_dates = [1, 2] ∧
    ([1, 2] : List Nat) ≠ [2, 1] := by decide

/-- C1 (amended): intervals are processed strictly in the order the
interval enumerator delivered them; in real execution that order is
ascending, or descending when `run_backwards` is set, while in dry-run
mode it is always the ascending forward enumeration, regardless of
`run_backwards`.  The forward enumeration is ascending whenever the
schedule rule's dates ascend. -/
theorem claim_C1 (cb : Collab) (dag : Dag) (args : Args) {sd ed : Nat}
    (hconf : args.conf = none) (hregex : args.task_regex = none)
    (hs : args.start_date = some sd) (he : args.end_date = some ed)
    (hasc : (dag.schedule_infos.map DagRunInfo.logical_date).Sorted (· ≤ ·)) :
    (dag_backfill cb [dag] args).interval_dates =
      (if args.dry_run = true ∨ args.run_backwards = false
        then (dag.iter_dagrun_infos_between sd ed).map DagRunInfo.logical_date
        else ((dag.iter_dagrun_infos_between sd ed).map DagRunInfo.logical_date).reverse) ∧
    ((dag.iter_dagrun_infos_between sd ed).map DagRunInfo.logical_date).Sorted (· ≤ ·) := by
  obtain ⟨-, -, -, h4, -, h6, -⟩ := dag_backfill_args_spec args
  refine ⟨?_, iter_sorted dag sd ed hasc⟩
  rw [dag_backfill_eq_dags cb [dag] args hconf hs he]
  have hsingle : sortedDags [dag] = [dag] := rfl
  rw [hsingle]
  have hregex' : (dag_backfill_args args).task_regex = none := by rw [h4, hregex]
  rw [backfillDags_single_ok dag (by rw [backfillDag_noregex dag hregex'])]
  unfold RunResult.interval_dates
  rw [backfillDag_noregex dag hregex']
  show (backfillDagProcessing cb none sd ed (dag_backfill_args args) dag).filterMap
      Event.intervalDate = _
  by_cases hdry : args.dry_run = true
  · rw [processing_interval_dates_dry dag (by rw [h6, hdry]),
      if_pos (Or.inl hdry)]
  · have hdryf : args.dry_run = false := by
      cases hx : args.dry_run
      · rfl
      · exact absurd hx hdry
    rw [processing_interval_dates_real dag (by rw [h6, hdryf])]
    obtain ⟨-, -, -, -, -, -, -, -, h9, -⟩ := dag_backfill_args_spec args
    rw [h9]
    by_cases hb : args.run_backwards = true
    · rw [if_pos hb, if_neg]
      rintro (h | h)
      · rw [hdryf] at h; cases h
      · rw [hb] at h; cases h
    · have hbf : args.run_backwards = false := by
        cases hx : args.run_backwards
        · rfl
        · exact absurd hx hb
      rw [if_neg (by rw [hbf]; exact Bool.false_ne_true), if_pos (Or.inr hbf)]

/-- Witness for C1 (amended) at a concrete real-execution invocation
with `run_backwards` set: the processed logical dates are the reverse of
the forward enumeration. -/
theorem claim_C1_witness :
    (dag_backfill collabX [dagX] { argsBase with run_backwards := true }).interval_dates
      = ((dagX.iter_dagrun_infos_between 0 5).map DagRunInfo.logical_date).reverse := by
  have h := claim_C1 collabX dagX { argsBase with run_backwards := true }
    rfl rfl rfl rfl (by decide)
  rw [h.1]
  decide

theorem backfillDag_regex {cb : Collab} {rc : Option ConfVal} {sd ed : Nat}
    {args : Args} (d : Dag) (r : String)
    (hregex : args.task_regex = some r) (hr : r ≠ "")
    (hne : (d.task_subset cb.re_search r (!args.ignore_dependencies)).tasks ≠ []) :
    backfillDag cb rc sd ed args d =
      ⟨Event.taskSubset d.dag_id r (!args.ignore_dependencies)
          ((d.task_subset cb.re_search r (!args.ignore_dependencies)).tasks.map Task.task_id) ::
        backfillDagProcessing cb rc sd ed args
          (d.task_subset cb.re_search r (!args.ignore_dependencies)), none⟩ := by
  simp only [backfillDag, hregex]
  rw [if_neg hr, if_neg hne]

theorem processing_real_reset {cb : Collab} {rc : Option ConfVal} {sd ed : Nat}
    {args : Args} (dag : Dag)
    (hdry : args.dry_run = false) (hreset : args.reset_dagruns = true) :
    backfillDagProcessing cb rc sd ed args dag =
      Event.clearDags dag.dag_id sd ed (!args.yes) true DagRunState.queued ::
        Dag.run dag (mkRunCall cb rc sd ed args dag) := by
  unfold backfillDagProcessing
  rw [if_neg (by rw [hdry]; exact Bool.false_ne_true), if_pos (by rw [hreset])]
  rfl

/-- C2 as stated is false: in dry-run mode the source never consults
`reset_dagruns` (the `DAG.clear_dags` call sits only on the real
execution branch), so a dry run requesting a run-state reset performs
none — its trace contains no `clear_dags` call at all. -/
theorem claim_C2_counterexample :
    ({ argsBase with dry_run := true, reset_dagruns := true } : Args).reset_dagruns = true ∧
    (dag_backfill collabX [dagX]
      { argsBase with dry_run := true, reset_dagruns := true }).events.all
        (fun ev => !ev.is_clear_dags) = true := by decide

/-- C2 (amended): a requested run-state reset is performed only in real
execution mode; there it happens after task-subset selection and before
any interval processing — the trace is exactly the selection call, then
the `clear_dags` reset, then the delegation to execution.  In dry-run
mode the reset request is ignored. -/
theorem claim_C2 (cb : Collab) (dag : Dag) (args : Args) {sd ed : Nat} {r : String}
    (hconf : args.conf = none) (hs : args.start_date = some sd)
    (he : args.end_date = some ed)
    (hregex : args.task_regex = some r) (hr : r ≠ "")
    (hdry : args.dry_run = false) (hreset : args.reset_dagruns = true)
    (hne : (dag.task_subset cb.re_search r (!args.ignore_dependencies)).tasks ≠ []) :
    (dag_backfill cb [dag] args).events =
      Event.taskSubset dag.dag_id r (!args.ignore_dependencies)
          ((dag.task_subset cb.re_search r (!args.ignore_dependencies)).tasks.map
            Task.task_id) ::
        Event.clearDags dag.dag_id sd ed (!args.yes) true DagRunState.queued ::
        Dag.run (dag.task_subset cb.re_search r (!args.ignore_dependencies))
          (mkRunCall cb none sd ed (dag_backfill_args args)
            (dag.task_subset cb.re_search r (!args.ignore_dependencies))) := by
  obtain ⟨h1, h2, h3, h4, h5, h6, h7, h8, -, -⟩ := dag_backfill_args_spec args
  rw [dag_backfill_eq_dags cb [dag] args hconf hs he]
  rw [show sortedDags [dag] = [dag] from rfl]
  have hregex' : (dag_backfill_args args).task_regex = some r := by rw [h4, hregex]
  have hne' : (dag.task_subset cb.re_search r
      (!(dag_backfill_args args).ignore_dependencies)).tasks ≠ [] := by
    rw [h5]; exact hne
  rw [backfillDags_single_ok dag (by rw [backfillDag_regex dag r hregex' hr hne'])]
  rw [backfillDag_regex dag r hregex' hr hne']
  rw [processing_real_reset _ (by rw [h6, hdry]) (by rw [h7, hreset])]
  rw [h5, h8]
  rfl

/-- Witness for C2 (amended) at a concrete real-execution invocation
with a reset request: the trace is selection, then reset, then
execution. -/
theorem claim_C2_witness :
    (dag_backfill collabX [dagX]
      { argsBase with
          task_regex := some "t0"
          reset_dagruns := true
          ignore_dependencies := true }).events =
      Event.taskSubset "dx" "t0" false
          ((dagX.task_subset collabX.re_search "t0" false).tasks.map Task.task_id) ::
        Event.clearDags "dx" 0 5 true true DagRunState.queued ::
        Dag.run (dagX.task_subset collabX.re_search "t0" false)
          (mkRunCall collabX none 0 5
            (dag_backfill_args
              { argsBase with
                  task_regex := some "t0"
                  reset_dagruns := true
                  ignore_dependencies := true })
            (dagX.task_subset collabX.re_search "t0" false)) :=
  claim_C2 collabX dagX
    { argsBase with
        task_regex := some "t0"
        reset_dagruns := true
        ignore_dependencies := true }
    rfl rfl rfl rfl (by decide) rfl rfl (by decide)

/-- C3 as stated is false: the empty-selection check runs inside the
per-workflow loop, so when a request matches several workflows and the
pattern selects zero tasks only in a later one, the earlier workflows
have already been processed before the abort — here the invocation ends
with the empty-selection error even though one interval (of `dagA`,
logical date 1) was already touched. -/
theorem claim_C3_counterexample :
    (dag_backfill collabX [dagA, dagB]
      { argsBase with task_regex := some "t", dry_run := true }).error
        = some (BackfillError.emptySelection "t") ∧
    (dag_backfill collabX [dagA, dagB]
      { argsBase with task_regex := some "t", dry_run := true }).interval_dates
        = [1] := by decide

/-- C3 (amended): the empty-selection check is per workflow: the
invocation aborts with the empty-selection error at the first workflow
whose selection is empty, immediately after that workflow's selection
call — before any interval of that workflow or of any later workflow is
touched; workflows processed earlier in the sorted order have already
run.  For a single-workflow invocation nothing is touched at all. -/
theorem claim_C3 (cb : Collab) (rc : Option ConfVal) (sd ed : Nat) (args : Args)
    (dbad : Dag) (ds : List Dag) {r : String}
    (hregex : args.task_regex = some r) (hr : r ≠ "")
    (hempty : (dbad.task_subset cb.re_search r (!args.ignore_dependencies)).tasks = []) :
    backfillDags cb rc sd ed args (dbad :: ds) =
      ⟨[Event.taskSubset dbad.dag_id r (!args.ignore_dependencies) []],
        some (BackfillError.emptySelection r)⟩ := by
  have hbad : backfillDag cb rc sd ed args dbad =
      ⟨[Event.taskSubset dbad.dag_id r (!args.ignore_dependencies) []],
        some (BackfillError.emptySelection r)⟩ := by
    simp only [backfillDag, hregex]
    rw [if_neg hr, if_pos hempty, hempty]
    simp
  simp only [backfillDags, hbad]
  rw [if_neg (by simp)]

/-- Witness for C3 (amended) at a concrete workflow whose selection is
empty: the invocation aborts right after the selection call, touching
nothing else. -/
theorem claim_C3_witness :
    backfillDags collabX none 0 5 { argsBase with task_regex := some "t" } [dagB] =
      ⟨[Event.taskSubset "db" "t" true []], some (BackfillError.emptySelection "t")⟩ :=
  claim_C3 collabX none 0 5 { argsBase with task_regex := some "t" } dagB []
    rfl (by decide) (by decide)

theorem printed_dry_tasks (did : String) (ld : Nat) (tasks : List Task) :
    (tasks.flatMap (fun t =>
      [Event.printLine (located_line t.task_id did),
       Event.tiDryRun did ld t.task_id])).filterMap Event.printed
      = tasks.map (fun t => located_line t.task_id did) := by
  induction tasks with
  | nil => rfl
  | cons t tasks ih =>
    simp only [List.flatMap_cons, List.filterMap_append, ih, List.map_cons]
    rfl

theorem printed_lines_dry (dag : Dag) (infos : List DagRunInfo) :
    (infos.flatMap (dryIntervalEvents dag)).filterMap Event.printed
      = infos.flatMap
          (fun _ => dag.tasks.map (fun t => located_line t.task_id dag.dag_id)) := by
  induction infos with
  | nil => rfl
  | cons i infos ih =>
    simp only [List.flatMap_cons, List.filterMap_append, ih]
    unfold dryIntervalEvents
    simp only [List.filterMap_cons, Event.printed, printed_dry_tasks]

theorem processing_printed_dry {cb : Collab} {rc : Option ConfVal} {sd ed : Nat}
    {args : Args} (dag : Dag) (h : args.dry_run = true) :
    (backfillDagProcessing cb rc sd ed args dag).filterMap Event.printed
      = (dag.iter_dagrun_infos_between sd ed).flatMap
          (fun _ => dag.tasks.map (fun t => located_line t.task_id dag.dag_id)) := by
  unfold backfillDagProcessing
  rw [if_pos (by rw [h])]
  simp only [List.filterMap_cons, Event.printed, printed_lines_dry]

theorem length_flatMap_const {α β : Type} (l : List α) (xs : List β) :
    (l.flatMap (fun _ => xs)).length = l.length * xs.length := by
  induction l with
  | nil => simp
  | cons a l ih =>
    simp only [List.flatMap_cons, List.length_append, ih, List.length_cons]
    ring

/-- C6 as stated is false in its content half: the dry-run line printed
for a task is `Task <task_id> located in DAG <dag_id>` — it names the
workflow, not the interval's run, so the lines printed for the same task
in two distinct intervals are literally identical and cannot describe
"that interval's" run: here two intervals (logical dates 1 and 2) yield
the same line twice. -/
theorem claim_C6_counterexample :
    (dag_backfill collabX [dagX] { argsBase with dry_run := true }).printed_lines
        = [located_line "t0" "dx", located_line "t0" "dx"] ∧
    (dag_backfill collabX [dagX] { argsBase with dry_run := true }).interval_dates
        = [1, 2] ∧
    (1 : Nat) ≠ 2 := by decide

/-- C6 (amended): a dry-run invocation emits exactly one trace line per
(interval, selected task) pair — the line count is the product of the
interval count and the task count — and each line states that the task
is located in the workflow (DAG); the line itself does not identify the
interval's run. -/
theorem claim_C6 (cb : Collab) (dag : Dag) (args : Args) {sd ed : Nat}
    (hconf : args.conf = none) (hregex : args.task_regex = none)
    (hs : args.start_date = some sd) (he : args.end_date = some ed)
    (hdry : args.dry_run = true) :
    (dag_backfill cb [dag] args).printed_lines
      = (dag.iter_dagrun_infos_between sd ed).flatMap
          (fun _ => dag.tasks.map (fun t => located_line t.task_id dag.dag_id)) ∧
    (dag_backfill cb [dag] args).printed_lines.length
      = (dag.iter_dagrun_infos_between sd ed).length * dag.tasks.length := by
  obtain ⟨-, -, -, h4, -, h6, -⟩ := dag_backfill_args_spec args
  have hmain : (dag_backfill cb [dag] args).printed_lines
      = (dag.iter_dagrun_infos_between sd ed).flatMap
          (fun _ => dag.tasks.map (fun t => located_line t.task_id dag.dag_id)) := by
    rw [dag_backfill_eq_dags cb [dag] args hconf hs he]
    rw [show sortedDags [dag] = [dag] from rfl]
    have hregex' : (dag_backfill_args args).task_regex = none := by rw [h4, hregex]
    rw [backfillDags_single_ok dag (by rw [backfillDag_noregex dag hregex'])]
    unfold RunResult.printed_lines
    rw [backfillDag_noregex dag hregex']
    exact processing_printed_dry dag (by rw [h6, hdry])
  refine ⟨hmain, ?_⟩
  rw [hmain, length_flatMap_const, List.length_map]

/-- Witness for C6 (amended) at a concrete dry run: two intervals and
one task give exactly the two located-in-DAG lines. -/
theorem claim_C6_witness :
    (dag_backfill collabX [dagX] { argsBase with dry_run := true }).printed_lines
      = (dagX.iter_dagrun_infos_between 0 5).flatMap
          (fun _ => dagX.tasks.map (fun t => located_line t.task_id dagX.dag_id)) :=
  (claim_C6 collabX dagX { argsBase with dry_run := true } rfl rfl rfl rfl rfl).1

theorem mem_upstreamsOf {tasks : List Task} {X : Finset String} {u : String} :
    u ∈ upstreamsOf tasks X ↔ ∃ t, t ∈ tasks ∧ t.task_id ∈ X ∧ u ∈ t.upstream_task_ids := by
  unfold upstreamsOf
  simp [List.mem_toFinset, List.mem_flatMap, List.mem_filter, decide_eq_true_eq, and_assoc]

theorem subset_saturateFuel (tasks : List Task) (V : Finset String) :
    ∀ (n : Nat) (X : Finset String), X ⊆ saturateFuel tasks V n X := by
  intro n
  induction n with
  | zero => intro X; exact Finset.Subset.refl X
  | succ n ih =>
    intro X
    unfold saturateFuel
    split
    · exact Finset.Subset.refl X
    · exact Finset.Subset.trans Finset.subset_union_left (ih _)

theorem saturateFuel_closed (tasks : List Task) (V : Finset String) :
    ∀ (n : Nat) (X : Finset String), (V ∪ X).card - X.card ≤ n →
      upstreamsOf tasks (saturateFuel tasks V n X) ∩ V ⊆ saturateFuel tasks V n X := by
  intro n
  induction n with
  | zero =>
    intro X hc
    have hXsub : X ⊆ V ∪ X := Finset.subset_union_right
    have hcard : (V ∪ X).card ≤ X.card := by omega
    have hEq : X = V ∪ X := Finset.eq_of_subset_of_card_le hXsub hcard
    intro u hu
    rcases Finset.mem_inter.mp hu with ⟨-, huV⟩
    show u ∈ X
    rw [hEq]
    exact Finset.mem_union_left X huV
  | succ n ih =>
    intro X hc
    unfold saturateFuel
    split
    · rename_i heq
      exact Finset.union_eq_left.mp heq
    · rename_i hne
      apply ih
      have hXY : X ⊆ X ∪ upstreamsOf tasks X ∩ V := Finset.subset_union_left
      have hYV : X ∪ upstreamsOf tasks X ∩ V ⊆ V ∪ X := by
        apply Finset.union_subset
        · exact Finset.subset_union_right
        · exact Finset.Subset.trans Finset.inter_subset_right Finset.subset_union_left
      have hVYX : V ∪ (X ∪ upstreamsOf tasks X ∩ V) = V ∪ X := by
        apply Finset.Subset.antisymm
        · exact Finset.union_subset Finset.subset_union_left hYV
        · exact Finset.union_subset_union_right hXY
      have hneq : X ≠ X ∪ upstreamsOf tasks X ∩ V := fun h => hne h.symm
      have hlt : X.card < (X ∪ upstreamsOf tasks X ∩ V).card :=
        Finset.card_lt_card (HasSubset.Subset.ssubset_of_ne hXY hneq)
      have hYle : (X ∪ upstreamsOf tasks X ∩ V).card ≤ (V ∪ X).card :=
        Finset.card_le_card hYV
      rw [hVYX]
      omega

theorem saturate_closed (tasks : List Task) (X : Finset String) :
    upstreamsOf tasks (saturate tasks X) ∩ taskIds tasks ⊆ saturate tasks X := by
  unfold saturate
  apply saturateFuel_closed
  have h1 : (taskIds tasks ∪ X).card ≤ (taskIds tasks).card + X.card :=
    Finset.card_union_le _ _
  have h2 : (taskIds tasks).card ≤ tasks.length := by
    unfold taskIds
    exact le_trans (List.toFinset_card_le _) (by simp)
  omega

theorem filter_sel_closed (tasks : List Task) (S : Finset String)
    (hwf : ∀ t ∈ tasks, ∀ u ∈ t.upstream_task_ids, u ∈ taskIds tasks)
    (hclosed : upstreamsOf tasks S ∩ taskIds tasks ⊆ S) :
    ∀ t ∈ tasks.filter (fun t => decide (t.task_id ∈ S)),
      ∀ u ∈ t.upstream_task_ids,
        u ∈ (tasks.filter (fun t => decide (t.task_id ∈ S))).map Task.task_id := by
  intro t ht u hu
  obtain ⟨htd, hsel⟩ := List.mem_filter.mp ht
  rw [decide_eq_true_eq] at hsel
  have huV : u ∈ taskIds tasks := hwf t htd u hu
  have huU : u ∈ upstreamsOf tasks S := mem_upstreamsOf.mpr ⟨t, htd, hsel, hu⟩
  have huS : u ∈ S := hclosed (Finset.mem_inter.mpr ⟨huU, huV⟩)
  obtain ⟨t', ht', hid⟩ : ∃ t', t' ∈ tasks ∧ t'.task_id = u := by
    unfold taskIds at huV
    rcases List.mem_map.mp (List.mem_toFinset.mp huV) with ⟨t', ht', hid⟩
    exact ⟨t', ht', hid⟩
  refine List.mem_map.mpr ⟨t', ?_, hid⟩
  refine List.mem_filter.mpr ⟨ht', ?_⟩
  rw [decide_eq_true_eq, hid]
  exact huS

/-- Upstream closedness of `task_subset` with `include_upstream`: a
well-formed workflow's selected subset contains every upstream
dependency of every selected task. -/
theorem task_subset_closed (re_search : String → String → Bool) (dag : Dag) (r : String)
    (hwf : ∀ t ∈ dag.tasks, ∀ u ∈ t.upstream_task_ids, u ∈ taskIds dag.tasks) :
    ∀ t ∈ (Dag.task_subset re_search dag r true).tasks,
      ∀ u ∈ t.upstream_task_ids,
        u ∈ (Dag.task_subset re_search dag r true).tasks.map Task.task_id :=
  filter_sel_closed dag.tasks
    (saturate dag.tasks (taskIds (dag.tasks.filter (fun t => re_search r t.task_id))))
    hwf (saturate_closed dag.tasks _)

theorem taskFor_pair (ld : Nat) (s did : String) (ld2 : Nat) (tid : String) :
    List.filterMap (Event.taskFor ld) [Event.printLine s, Event.tiDryRun did ld2 tid]
      = if ld2 = ld then [tid] else [] := by
  by_cases h : ld2 = ld <;> simp [Event.taskFor, List.filterMap_cons, h]

theorem taskFor_dry_tasks (did : String) (ld ld2 : Nat) (tasks : List Task) :
    (tasks.flatMap (fun t =>
      [Event.printLine (located_line t.task_id did),
       Event.tiDryRun did ld2 t.task_id])).filterMap (Event.taskFor ld)
      = if ld2 = ld then tasks.map Task.task_id else [] := by
  induction tasks with
  | nil => split <;> rfl
  | cons t tasks ih =>
    rw [List.flatMap_cons, List.filterMap_append, taskFor_pair, ih]
    by_cases h : ld2 = ld
    · rw [if_pos h, if_pos h, if_pos h, List.map_cons]
      rfl
    · rw [if_neg h, if_neg h, if_neg h]
      rfl

theorem taskFor_exec_tasks (did : String) (ld ld2 : Nat) (tasks : List Task) :
    (tasks.map (fun t => Event.execTask did ld2 t.task_id)).filterMap (Event.taskFor ld)
      = if ld2 = ld then tasks.map Task.task_id else [] := by
  have hone : ∀ tid : String,
      Event.taskFor ld (Event.execTask did ld2 tid)
        = if ld2 = ld then some tid else none := fun _ => rfl
  induction tasks with
  | nil => split <;> rfl
  | cons t tasks ih =>
    rw [List.map_cons, List.filterMap_cons, hone, ih]
    by_cases h : ld2 = ld
    · rw [if_pos h, if_pos h, if_pos h, List.map_cons]
    · rw [if_neg h, if_neg h, if_neg h]

theorem taskFor_seg_flatMap_nil (ld : Nat) (out : List String)
    (seg : DagRunInfo → List Event) (infos : List DagRunInfo)
    (hseg : ∀ i, (seg i).filterMap (Event.taskFor ld)
      = if i.logical_date = ld then out else [])
    (hnot : ld ∉ infos.map DagRunInfo.logical_date) :
    (infos.flatMap seg).filterMap (Event.taskFor ld) = [] := by
  induction infos with
  | nil => rfl
  | cons i infos ih =>
    simp only [List.map_cons, List.mem_cons, not_or] at hnot
    obtain ⟨h1, h2⟩ := hnot
    have hne2 : ¬ i.logical_date = ld := fun h => h1 h.symm
    simp only [List.flatMap_cons, List.filterMap_append, hseg i, if_neg hne2,
      List.nil_append]
    exact ih h2

theorem taskFor_seg_flatMap (ld : Nat) (out : List String)
    (seg : DagRunInfo → List Event) (infos : List DagRunInfo)
    (hseg : ∀ i, (seg i).filterMap (Event.taskFor ld)
      = if i.logical_date = ld then out else [])
    (hnodup : (infos.map DagRunInfo.logical_date).Nodup)
    (hld : ld ∈ infos.map DagRunInfo.logical_date) :
    (infos.flatMap seg).filterMap (Event.taskFor ld) = out := by
  induction infos with
  | nil => simp at hld
  | cons i infos ih =>
    simp only [List.map_cons, List.nodup_cons] at hnodup
    obtain ⟨hni, hnd⟩ := hnodup
    simp only [List.map_cons, List.mem_cons] at hld
    simp only [List.flatMap_cons, List.filterMap_append, hseg i]
    by_cases h : i.logical_date = ld
    · rw [if_pos h]
      have hnotin : ld ∉ infos.map DagRunInfo.logical_date := by
        rw [← h]; exact hni
      rw [taskFor_seg_flatMap_nil ld out seg infos hseg hnotin, List.append_nil]
    · rw [if_neg h, List.nil_append]
      apply ih hnd
      rcases hld with h' | h'
      · exact absurd h'.symm h
      · exact h'

theorem iter_nodup (dag : Dag) (sd ed : Nat)
    (hnodup : (dag.schedule_infos.map DagRunInfo.logical_date).Nodup) :
    ((dag.iter_dagrun_infos_between sd ed).map DagRunInfo.logical_date).Nodup := by
  unfold Dag.iter_dagrun_infos_between
  exact List.Nodup.sublist ((List.filter_sublist _).map DagRunInfo.logical_date) hnodup

theorem processing_taskFor_dry {cb : Collab} {rc : Option ConfVal} {sd ed : Nat}
    {args : Args} (dag : Dag) (ld : Nat) (h : args.dry_run = true)
    (hnodup : (dag.schedule_infos.map DagRunInfo.logical_date).Nodup)
    (hld : ld ∈ (dag.iter_dagrun_infos_between sd ed).map DagRunInfo.logical_date) :
    (backfillDagProcessing cb rc sd ed args dag).filterMap (Event.taskFor ld)
      = dag.tasks.map Task.task_id := by
  unfold backfillDagProcessing
  rw [if_pos (by rw [h])]
  simp only [List.filterMap_cons, Event.taskFor]
  refine taskFor_seg_flatMap ld (dag.tasks.map Task.task_id) (dryIntervalEvents dag) _
    ?_ (iter_nodup dag sd ed hnodup) hld
  intro i
  unfold dryIntervalEvents
  simp only [List.filterMap_cons, Event.taskFor, taskFor_dry_tasks]

theorem processing_taskFor_real {cb : Collab} {rc : Option ConfVal} {sd ed : Nat}
    {args : Args} (dag : Dag) (ld : Nat) (h : args.dry_run = false)
    (hnodup : (dag.schedule_infos.map DagRunInfo.logical_date).Nodup)
    (hld : ld ∈ (dag.iter_dagrun_infos_between sd ed).map DagRunInfo.logical_date) :
    (backfillDagProcessing cb rc sd ed args dag).filterMap (Event.taskFor ld)
      = dag.tasks.map Task.task_id := by
  unfold backfillDagProcessing
  rw [if_neg (by rw [h]; exact Bool.false_ne_true)]
  rw [List.filterMap_append]
  have hreset : (if args.reset_dagruns
      then [Event.clearDags dag.dag_id sd ed (!args.yes) true DagRunState.queued]
      else []).filterMap (Event.taskFor ld) = [] := by
    split <;> rfl
  rw [hreset, List.nil_append]
  simp only [Dag.run, List.filterMap_cons, Event.taskFor]
  have hseg : ∀ i, (execIntervalEvents dag i).filterMap (Event.taskFor ld)
      = if i.logical_date = ld then dag.tasks.map Task.task_id else [] := by
    intro i
    unfold execIntervalEvents
    simp only [List.filterMap_cons, Event.taskFor, taskFor_exec_tasks]
  by_cases hb : (mkRunCall cb rc sd ed args dag).run_backwards = true
  · rw [if_pos hb]
    refine taskFor_seg_flatMap ld (dag.tasks.map Task.task_id) (execIntervalEvents dag) _
      hseg ?_ ?_
    · rw [List.map_reverse]
      exact (List.nodup_reverse).mpr (iter_nodup dag _ _ hnodup)
    · rw [List.map_reverse]
      exact (List.mem_reverse).mpr hld
  · rw [if_neg hb]
    exact taskFor_seg_flatMap ld (dag.tasks.map Task.task_id) (execIntervalEvents dag) _
      hseg (iter_nodup dag _ _ hnodup) hld

/-- C7: the task subset is computed once per workflow, before interval
processing, and the tasks processed for every interval of the backfill
are exactly that subset's tasks, identically in dry-run and real
execution; when upstream inclusion is enabled (`ignore_dependencies`
false) the subset is closed under the upstream relation — no selected
task of a well-formed workflow has an unselected upstream dependency. -/
theorem claim_C7 (cb : Collab) (dag : Dag) (args : Args) {sd ed : Nat} {r : String}
    (hconf : args.conf = none) (hs : args.start_date = some sd)
    (he : args.end_date = some ed)
    (hregex : args.task_regex = some r) (hr : r ≠ "")
    (hne : (dag.task_subset cb.re_search r (!args.ignore_dependencies)).tasks ≠ [])
    (hwf : ∀ t ∈ dag.tasks, ∀ u ∈ t.upstream_task_ids, u ∈ taskIds dag.tasks)
    (hnodup : (dag.schedule_infos.map DagRunInfo.logical_date).Nodup) :
    (∀ ld ∈ (dag.iter_dagrun_infos_between sd ed).map DagRunInfo.logical_date,
      (dag_backfill cb [dag] args).events.filterMap (Event.taskFor ld)
        = (dag.task_subset cb.re_search r (!args.ignore_dependencies)).tasks.map
            Task.task_id) ∧
    (args.ignore_dependencies = false →
      ∀ t ∈ (dag.task_subset cb.re_search r (!args.ignore_dependencies)).tasks,
        ∀ u ∈ t.upstream_task_ids,
          u ∈ (dag.task_subset cb.re_search r (!args.ignore_dependencies)).tasks.map
            Task.task_id) := by
  obtain ⟨h1, h2, h3, h4, h5, h6, -⟩ := dag_backfill_args_spec args
  constructor
  · intro ld hld
    rw [dag_backfill_eq_dags cb [dag] args hconf hs he]
    rw [show sortedDags [dag] = [dag] from rfl]
    have hregex' : (dag_backfill_args args).task_regex = some r := by rw [h4, hregex]
    have hne' : (dag.task_subset cb.re_search r
        (!(dag_backfill_args args).ignore_dependencies)).tasks ≠ [] := by
      rw [h5]; exact hne
    rw [backfillDags_single_ok dag (by rw [backfillDag_regex dag r hregex' hr hne'])]
    rw [backfillDag_regex dag r hregex' hr hne']
    show (Event.taskSubset _ _ _ _ ::
        backfillDagProcessing cb none sd ed (dag_backfill_args args)
          (dag.task_subset cb.re_search r
            (!(dag_backfill_args args).ignore_dependencies))).filterMap
        (Event.taskFor ld) = _
    simp only [List.filterMap_cons, Event.taskFor]
    rw [h5]
    by_cases hdry : args.dry_run = true
    · exact processing_taskFor_dry _ ld (by rw [h6, hdry]) hnodup hld
    · have hdryf : args.dry_run = false := by
        cases hx : args.dry_run
        · rfl
        · exact absurd hx hdry
      exact processing_taskFor_real _ ld (by rw [h6, hdryf]) hnodup hld
  · intro hig
    have h := task_subset_closed cb.re_search dag r hwf
    rw [hig]
    exact h

/-- Witness for C7 at the chain workflow t0 → t1 → t2, pattern `t2`,
upstream inclusion on: the tasks processed for the single interval are
exactly the closed subset. -/
theorem claim_C7_witness :
    (dag_backfill collabX [dagW]
      { argsBase with task_regex := some "t2", dry_run := true }).events.filterMap
        (Event.taskFor 1)
      = (dagW.task_subset collabX.re_search "t2" true).tasks.map Task.task_id :=
  (claim_C7 collabX dagW { argsBase with task_regex := some "t2", dry_run := true }
    rfl rfl rfl rfl (by decide) (by decide) (by decide) (by decide)).1 1 (by decide)

end AirflowBackfill
